import Mathlib

/-!
Verification of the core of the `appeal` command-line parsing library
(`appeal/__init__.py`): argument-group arity tracking, option-string
normalization, the compiler finalization pass, duplicate-option
tracking, the converter tree with discretionary queueing, the
option-scope stack, and the Charm interpreter's two-phase loop.

All definitions are shallow embeddings of the Python source.  Python
strings are modelled as `List Char`; Python `int`-or-`math.inf` values
as `ExtInt`; mutable object graphs as explicit association-list stores
keyed by `Nat`.
-/

namespace AppealSpec

/-- A Python number that is either an integer or `math.inf`, as used for
`ArgumentGroup.maximum` (the finalization pass can set the aggregate
maximum to `math.inf`). -/
inductive ExtInt where
  | fin (n : Int)
  | inf
deriving DecidableEq

/-- `a <= b` where `a` is an `int` and `b` may be `math.inf`. -/
def ExtInt.leInt (a : Int) (b : ExtInt) : Bool :=
  match b with
  | .fin m => decide (a ≤ m)
  | .inf => true

/-- `b + 1`; `math.inf + 1` is `math.inf`. -/
def ExtInt.add1 : ExtInt → ExtInt
  | .fin n => .fin (n + 1)
  | .inf => .inf

/-- `b >= 2`, used by the short-option bundling checks. -/
def ExtInt.ge2 : ExtInt → Bool
  | .fin n => decide (2 ≤ n)
  | .inf => true

/-- `ArgumentGroup` (`appeal/__init__.py` 411-444): arity bounds plus the
usage counters for one contiguous run of parameters.  `count` starts at 0
and `laden` at `False` in `__init__`; group ids (serial strings in the
source) are modelled as `Nat`. -/
structure ArgumentGroup where
  id : Nat
  minimum : Int
  maximum : ExtInt
  optional : Bool
  count : Int
  laden : Bool
deriving DecidableEq

/-- `ArgumentGroup.satisfied` (426-429):
`if self.optional and (not (self.laden or self.count)): return True`,
otherwise `return self.minimum <= self.count <= self.maximum`.
Python truthiness: `self.count` is truthy iff it is nonzero. -/
def ArgumentGroup.satisfied (g : ArgumentGroup) : Bool :=
  if g.optional && !(g.laden || decide (g.count ≠ 0)) then
    true
  else
    decide (g.minimum ≤ g.count) && ExtInt.leInt g.count g.maximum

/-- `normalize_option` (158-166), on its asserted domain: the argument is
nonempty, has length other than 1 and 3, starts with `-`, and either has
length 2 or starts with `--`.  A length-2 option `-x` normalizes to the
single character `x`; a long option is returned unchanged. -/
def normalize_option (s : List Char) : List Char :=
  if s.length = 2 then s.drop 1 else s

/-- `denormalize_option` (168-172): a length-1 (normalized short) option
gets `-` prefixed back on; anything else is returned unchanged. -/
def denormalize_option (s : List Char) : List Char :=
  if s.length = 1 then '-' :: s else s

/-- The instruction shapes that matter to the arity computation in
`CharmCompiler.finalize` (1764-1892).  `set_group` carries the assembled
bounds stored in the instruction's own `ArgumentGroup` object; `other`
stands for every opcode the arity computation ignores (the label, no-op
and comment deletions do not touch arity-relevant instructions, so the
scan visits each of these once, in order). -/
inductive FinalizeInstr where
  | set_group (id : Nat) (minimum : Int) (maximum : ExtInt)
      (optional : Bool) (repeating : Bool)
  | consume_argument
  | other
deriving DecidableEq

/-- The arity-relevant state threaded through the `finalize` scan: the
program's aggregate `total` bounds, the `optional` flag of the most
recent `set_group` (initially `False`, 1794), and the most recent
`set_group` instruction's own mutable bounds (initially `None`, 1787). -/
structure FinalizeState where
  totalMin : Int
  totalMax : ExtInt
  optional : Bool
  group : Option (Nat × Int × ExtInt)
deriving DecidableEq

/-- One arity-computation step of the `finalize` scan (1826-1839).  An
`ArgumentGroup` defines no `__bool__`, so `if total:` and `if group:`
test only for `None`: `total` is always updated, and the active group is
updated once a `set_group` has been scanned.  `total.minimum` is
incremented only when the active group is not optional. -/
def finalizeStep (st : FinalizeState) (i : FinalizeInstr) : FinalizeState :=
  match i with
  | .set_group id mn mx opt rep =>
      { st with
        group := some (id, mn, mx)
        optional := opt
        totalMax := if rep then .inf else st.totalMax }
  | .consume_argument =>
      { st with
        totalMin := if st.optional then st.totalMin else st.totalMin + 1
        totalMax := st.totalMax.add1
        group := st.group.map (fun g => (g.1, g.2.1 + 1, g.2.2.add1)) }
  | .other => st

/-- The arity computation over the whole linear `finalize` scan. -/
def finalizeScan (st : FinalizeState) (l : List FinalizeInstr) : FinalizeState :=
  l.foldl finalizeStep st

/-- The initial arity state of a compiled `CharmProgram`:
`self.total = ArgumentGroup(0, 0, optional=False)` (463). -/
def finalizeInit : FinalizeState :=
  { totalMin := 0, totalMax := .fin 0, optional := false, group := none }

/-- C2 counterexample: scanning a `ConsumeArgument` does not always
increment the whole-program minimum.  Concretely, after
`SetGroup (optional=True)` followed by `ConsumeArgument`, the aggregate
minimum is still 0 (while the aggregate maximum became 1), so the step
on a `ConsumeArgument` does not increment both aggregate bounds. -/
theorem finalize_consume_argument_counterexample :
    (finalizeScan finalizeInit
        [.set_group 1 0 (.fin 0) true false, .consume_argument]).totalMin = 0 ∧
      (finalizeScan finalizeInit
        [.set_group 1 0 (.fin 0) true false, .consume_argument]).totalMax = .fin 1 ∧
      ¬ ∀ st : FinalizeState,
          (finalizeStep st .consume_argument).totalMin = st.totalMin + 1 := by
  refine ⟨by decide, by decide, fun h => ?_⟩
  exact absurd (h ⟨0, .fin 0, true, some (1, 0, .fin 0)⟩) (by decide)

/-- C2 amended: for every `ConsumeArgument` scanned, the whole-program
maximum and the active group's minimum and maximum are incremented by
one, while the whole-program minimum is incremented only when the active
group is not optional; every `SetGroup` whose group is repeating sets
the whole-program maximum to unbounded. -/
theorem finalize_consume_argument_amended (st : FinalizeState)
    (l : List FinalizeInstr) :
    ((finalizeScan st (l ++ [.consume_argument])).totalMax
        = (finalizeScan st l).totalMax.add1) ∧
      ((finalizeScan st (l ++ [.consume_argument])).totalMin
        = if (finalizeScan st l).optional then (finalizeScan st l).totalMin
          else (finalizeScan st l).totalMin + 1) ∧
      ((finalizeScan st (l ++ [.consume_argument])).group
        = (finalizeScan st l).group.map
            (fun g => (g.1, g.2.1 + 1, g.2.2.add1))) ∧
      (∀ id mn mx opt,
        (finalizeScan st (l ++ [.set_group id mn mx opt true])).totalMax
          = .inf) := by
  refine ⟨?_, ?_, ?_, fun id mn mx opt => ?_⟩ <;>
    simp [finalizeScan, List.foldl_append, finalizeStep]

/-- The option-mapping events that drive duplicate-option tracking during
compilation: a `MapOption` emission for a given normalized option string
(`compile_options`, 1399-1419), a `ConsumeArgument` emission for a
string positional, which calls `reset_duplicate_options_a` (1673-1675),
and the start of a new argument group (1291-1323). -/
inductive CompileEvent where
  | map_option (opt : List Char)
  | consume_argument
  | new_group
deriving DecidableEq

/-- The duplicate-option tracking state of `CharmCompiler`: `ag_options`
(options already mapped in the current group), `ag_duplicate_options`
(options mapped as duplicates since the last `ConsumeArgument`), and
whether `ag_duplicate_options_a` is truthy.  The assembler is `None`
from group start until the first `ConsumeArgument` (1319), and from its
creation in `reset_duplicate_options_a` it always holds at least a
comment instruction (1333), so its truthiness coincides with its
existence. -/
structure DupOptState where
  ag_options : List (List Char)
  ag_duplicate_options : List (List Char)
  dup_assembler : Bool
deriving DecidableEq

/-- One compilation event.  Mapping an option already in `ag_options` is
legal only when `ag_duplicate_options_a` exists and the option is not
already in `ag_duplicate_options` (1404-1413); otherwise compilation
raises `AppealConfigurationError`.  `reset_duplicate_options_a` empties
the duplicate set and (re)creates the assembler; a new group clears
everything (1319-1320 and `clean_up_argument_group`). -/
def dupOptStep (st : DupOptState) (e : CompileEvent) :
    Except (List Char) DupOptState :=
  match e with
  | .map_option o =>
      if o ∈ st.ag_options then
        if st.dup_assembler then
          if o ∈ st.ag_duplicate_options then
            .error ("multiple definitions of option ".toList
              ++ denormalize_option o
              ++ " are ambiguous (no arguments consumed in between definitions)".toList)
          else
            .ok { st with ag_duplicate_options := st.ag_duplicate_options ++ [o] }
        else
          .error ("argument group initialized with multiple definitions of option ".toList
            ++ denormalize_option o ++ ", ambiguous".toList)
      else
        .ok { st with ag_options := st.ag_options ++ [o] }
  | .consume_argument =>
      .ok { st with ag_duplicate_options := [], dup_assembler := true }
  | .new_group =>
      .ok { ag_options := [], ag_duplicate_options := [], dup_assembler := false }

/-- Running the duplicate-option tracker over a sequence of compilation
events from a given state; any configuration error aborts the
compilation. -/
def dupOptRunFrom (st : DupOptState) :
    List CompileEvent → Except (List Char) DupOptState
  | [] => .ok st
  | e :: rest =>
      match dupOptStep st e with
      | .error msg => .error msg
      | .ok st' => dupOptRunFrom st' rest

/-- Running the duplicate-option tracker over a sequence of compilation
events, starting from a fresh argument group. -/
def dupOptRun (l : List CompileEvent) : Except (List Char) DupOptState :=
  dupOptRunFrom ⟨[], [], false⟩ l

/-- A `ConsumeArgument` emitted between two `MapOption` emissions of the
same option string, within one group: C5 says this compiles. -/
def dupOptSeparated (o : List Char) : List CompileEvent :=
  [.map_option o, .consume_argument, .map_option o]

/-- A `ConsumeArgument` emitted before both `MapOption` emissions of the
same option string (none between them), within one group. -/
def dupOptUnseparated (o : List Char) : List CompileEvent :=
  [.consume_argument, .map_option o, .map_option o]

/-- Association-list lookup with Python `dict.get` semantics (leftmost
binding wins; bindings are unique by construction). -/
def alGet {α β : Type} [DecidableEq α] (k : α) : List (α × β) → Option β
  | [] => none
  | (k', v) :: rest => if k' = k then some v else alGet k rest

/-- Association-list insert-or-overwrite with Python `dict.__setitem__`
semantics: an existing binding is overwritten in place, a new binding is
appended (insertion order preserved). -/
def alSet {α β : Type} [DecidableEq α] (k : α) (v : β) :
    List (α × β) → List (α × β)
  | [] => [(k, v)]
  | (k', v') :: rest =>
      if k' = k then (k, v) :: rest else (k', v') :: alSet k v rest

/-- In-place update of the value bound to `k` (mutation of the object the
reference points to); no-op when the key is absent. -/
def alModify {α β : Type} [DecidableEq α] (k : α) (f : β → β) :
    List (α × β) → List (α × β)
  | [] => []
  | (k', v) :: rest =>
      if k' = k then (k', f v) :: rest else (k', v) :: alModify k f rest

/-- A value held in a converter's argument lists: either a command-line
string or a reference to a child converter in the converter store. -/
inductive Val where
  | str (s : List Char)
  | conv (key : Nat)
deriving DecidableEq

/-- The mutable state of one `Converter` (3002-3297, `reset` at
3049-3095): the materialized positional arguments `args_converters`, the
keyword arguments `kwargs_converters`, the discretionary parent pointer
`queued`, the pending-children queue `args_queue`, whether the
converter's class is a `MultiOption`, and a `MultiOption`'s accumulated
snapshots (`multi_converters`, 3567-3577). -/
structure ConvState where
  args_converters : List Val
  kwargs_converters : List (List Char × Option Val)
  queued : Option Nat
  args_queue : List Nat
  multi : Bool
  multi_converters : List (List Val × List (List Char × Option Val))
deriving DecidableEq

/-- A freshly created converter: every collection empty, not queued. -/
def ConvState.fresh (multi : Bool) : ConvState :=
  ⟨[], [], none, [], multi, []⟩

/-- The store of live converter objects, keyed by converter key. -/
abbrev ConvStore := List (Nat × ConvState)

/-- `Converter.queue_converter` (3227-3235): `o.queued = self;`
`self.args_queue.append(o)`.  The `assert not o.queued` is modelled by
returning `none` when it fails (as is a dangling reference). -/
def queue_converter (store : ConvStore) (selfKey oKey : Nat) :
    Option ConvStore :=
  match alGet oKey store with
  | none => none
  | some oc =>
      if oc.queued = none then
        some (alModify selfKey
          (fun c => { c with args_queue := c.args_queue ++ [oKey] })
          (alModify oKey (fun c => { c with queued := some selfKey }) store))
      else none

/-- The flush loop inside `Converter.unqueue` (3260-3269): pop children
off the front of `self.args_queue`, appending each to
`self.args_converters` and clearing its `queued` pointer, until the
target converter has been flushed. -/
def flushArgsQueue (selfKey target : Nat) :
    List Nat → ConvStore → ConvStore
  | [], store => store
  | c :: rest, store =>
      let store' := alModify selfKey
        (fun s => { s with
          args_queue := rest,
          args_converters := s.args_converters ++ [.conv c] }) store
      let store'' := alModify c (fun s => { s with queued := none }) store'
      if c = target then store'' else flushArgsQueue selfKey target rest store''

/-- `Converter.unqueue` (3237-3271): unqueue ourselves from our parent
(recursively up the discretionary subtree), then, when a converter
argument is given and is in our `args_queue`, flush the queue up to and
including it.  Recursion depth is bounded by `fuel`; `none` models a
broken `queued` chain, which cannot arise in a real run. -/
def unqueue (fuel : Nat) (store : ConvStore) (selfKey : Nat)
    (converter : Option Nat) : Option ConvStore :=
  match fuel with
  | 0 => none
  | fuel + 1 =>
      match alGet selfKey store with
      | none => none
      | some self =>
          let step1 : Option ConvStore :=
            match self.queued with
            | some parent =>
                match unqueue fuel store parent (some selfKey) with
                | none => none
                | some store' =>
                    some (alModify selfKey
                      (fun c => { c with queued := none }) store')
            | none => some store
          match step1 with
          | none => none
          | some store' =>
              match converter with
              | none => some store'
              | some c =>
                  match alGet selfKey store' with
                  | none => none
                  | some self' =>
                      if c ∈ self'.args_queue then
                        some (flushArgsQueue selfKey c self'.args_queue store')
                      else some store'

/-- `Converter.append_converter` (3204-3225): append `o` directly to
`args_converters`; a string argument triggers `unqueue`, a converter
child is asked to notify us when we are part of a queued subtree. -/
def append_converter (fuel : Nat) (store : ConvStore) (selfKey : Nat)
    (o : Val) : Option ConvStore :=
  match alGet selfKey store with
  | none => none
  | some _ =>
      let store' := alModify selfKey
        (fun s => { s with args_converters := s.args_converters ++ [o] }) store
      match o with
      | .str _ => unqueue fuel store' selfKey none
      | .conv okey =>
          match alGet okey store' with
          | none => none
          | some oc =>
              if oc.queued = none then
                match alGet selfKey store' with
                | none => none
                | some self =>
                    if self.queued.isSome then
                      some (alModify okey
                        (fun c => { c with queued := some selfKey }) store')
                    else some store'
              else none

mutual
/-- A finalized `CharmProgram` (447-476): name, instruction list, the
aggregate `total` bounds computed by `finalize`, and the `options` map
from normalized option string to the (denormalized, `|`-joined) name of
its parent option, or `None` for a top-level option (1363, 1397).
Program ids and argument-group ids (serial strings) are `Nat`s. -/
inductive CharmProgram where
  | mk (name : List Char) (opcodes : List CharmInstruction)
      (totalMin : Int) (totalMax : ExtInt)
      (options : List (List Char × Option (List Char)))

/-- The finalized Charm instructions (538-973; the compiler-only
pseudo-instructions are removed by `finalize` and never reach the
interpreter).  `create_converter` records whether the converter class is
a `MultiOption` (the interpreter dispatches on the class); `set_group`
carries its `ArgumentGroup` template's bounds. -/
inductive CharmInstruction where
  | jump (address : Nat)
  | branch_on_o (address : Nat)
  | create_converter (key : Nat) (is_command : Bool) (multi : Bool)
  | load_converter (key : Nat)
  | load_o (key : Nat)
  | append_to_args (discretionary : Bool)
  | add_to_kwargs (name : List Char)
  | map_option (opt : List Char) (program : CharmProgram) (group : Nat)
  | consume_argument (required : Bool) (is_oparg : Bool)
  | flush_multioption
  | set_group (id : Nat) (minimum : Int) (maximum : ExtInt)
      (optional : Bool) (repeating : Bool)
  | end_marker
end

/-- The program's name. -/
def CharmProgram.name : CharmProgram → List Char
  | .mk n _ _ _ _ => n

/-- The program's finalized instruction list. -/
def CharmProgram.opcodes : CharmProgram → List CharmInstruction
  | .mk _ ops _ _ _ => ops

/-- `program.total.minimum`. -/
def CharmProgram.totalMin : CharmProgram → Int
  | .mk _ _ mn _ _ => mn

/-- `program.total.maximum`. -/
def CharmProgram.totalMax : CharmProgram → ExtInt
  | .mk _ _ _ mx _ => mx

/-- `program.options`: option string to parent option names. -/
def CharmProgram.options :
    CharmProgram → List (List Char × Option (List Char))
  | .mk _ _ _ _ o => o

/-- One entry of an options dict: the option's sub-program and the id of
the `ArgumentGroup` the option was mapped in (`map_option` executes
`self.options[op.option] = (op.program, op.group)`, 2588). -/
abbrev OptEntry := CharmProgram × Nat

/-- `CharmInterpreter.Options` (2292-2420): the option-scope stack.  The
current dict `cur` is the top of the stack; `stack` holds the rest, top
first (the Python list's end, the top, is this list's head).  Tokens are
serial numbers identifying each dict; the `token_to_dict` and
`dict_id_to_token` bookkeeping is represented by the token stored next
to each dict. -/
structure OptionsState where
  cur : List (List Char × OptEntry)
  curToken : Nat
  stack : List (List (List Char × OptEntry) × Nat)
  nextToken : Nat

/-- `Options.__init__` ends with `reset()`: one empty dict with the
first token. -/
def OptionsState.init : OptionsState := ⟨[], 1, [], 2⟩

/-- `Options.push` (2334-2339): save the current dict, then `reset()` to
a fresh empty dict with a fresh token. -/
def OptionsState.push (s : OptionsState) : OptionsState :=
  ⟨[], s.nextToken, (s.cur, s.curToken) :: s.stack, s.nextToken + 1⟩

/-- The popping loop of `Options.pop_until_token` (2357-2375): pop stack
entries until the dict registered for the target token is current;
`none` models the `ValueError` for a token no longer in the stack. -/
def OptionsState.popToToken :
    List (List (List Char × OptEntry) × Nat) → Nat →
      Option (List (List Char × OptEntry) ×
        List (List (List Char × OptEntry) × Nat))
  | [], _ => none
  | (d, tk) :: rest, t =>
      if tk = t then some (d, rest) else OptionsState.popToToken rest t

/-- `Options.pop_until_token` (2357-2375). -/
def OptionsState.popUntilToken (s : OptionsState) (t : Nat) :
    Option OptionsState :=
  if s.curToken = t then some s
  else
    match OptionsState.popToToken s.stack t with
    | none => none
    | some (d, rest) => some ⟨d, t, rest, s.nextToken⟩

/-- `Options.unmap_all_child_options` (2377-2393): pop every stack
entry, leaving the bottom dict (where the permanently mapped options
live) current. -/
def OptionsState.unmapAll (s : OptionsState) : OptionsState :=
  match s.stack.getLast? with
  | none => s
  | some (d, t) => ⟨d, t, [], s.nextToken⟩

/-- The stack search of `Options.__getitem__` (2395-2405), from the
innermost dict below the current one outward. -/
def OptionsState.findInStack :
    List (List (List Char × OptEntry) × Nat) → List Char →
      Option (OptEntry × Nat)
  | [], _ => none
  | (d, tk) :: rest, opt =>
      match alGet opt d with
      | some t => some (t, tk)
      | none => OptionsState.findInStack rest opt

/-- `Options.__getitem__`'s successful search: the entry and the token
of the dict it was found in. -/
def OptionsState.find (s : OptionsState) (opt : List Char) :
    Option (OptEntry × Nat) :=
  match alGet opt s.cur with
  | some t => some (t, s.curToken)
  | none => OptionsState.findInStack s.stack opt

/-- `parent_options.replace("|", "or")` (2409). -/
def replacePipeWithOr (s : List Char) : List Char :=
  s.foldr (fun c acc => if c = '|' then 'o' :: 'r' :: acc else c :: acc) []

/-- The message of `Options.__getitem__`'s hierarchical-option usage
error (2410): the option exists in the program's option table but is not
currently mapped. -/
def msgMustFollowParent (opt parent : List Char) : List Char :=
  denormalize_option opt
    ++ " can't be used here, it must be used immediately after ".toList
    ++ replacePipeWithOr parent

/-- The message of `Options.__getitem__`'s unknown-option usage error
(2412). -/
def msgUnknownOption (opt : List Char) : List Char :=
  "unknown option ".toList ++ denormalize_option opt

/-- `Options.__getitem__`'s failure message (2407-2412): `program.options
.get(option)` decides between the two; `None` and the empty string are
falsy. -/
def optionFailureMsg (prog : CharmProgram) (opt : List Char) : List Char :=
  match alGet opt prog.options with
  | some (some parent) =>
      if parent.isEmpty then msgUnknownOption opt
      else msgMustFollowParent opt parent
  | _ => msgUnknownOption opt

/-- Decimal rendering of the bounds in usage messages. -/
def intChars (n : Int) : List Char := (toString n).toList

/-- Rendering of a possibly-infinite maximum (`math.inf` prints `inf`). -/
def ExtInt.render : ExtInt → List Char
  | .fin n => intChars n
  | .inf => "inf".toList

/-- The message of the short-option-bundling usage error for an option
taking two or more arguments (2882-2887). -/
def msgTakesArguments (opt rem : List Char) (mn : Int) (mx : ExtInt)
    : List Char :=
  let n := if ExtInt.fin mn = mx then mx.render
    else intChars mn ++ " to ".toList ++ mx.render
  '-' :: opt ++ rem ++ " isn't allowed, -".toList ++ opt
    ++ " takes ".toList ++ n ++ " arguments, it must be last".toList

/-- The message of the fused-oparg usage error for an option taking one
required argument (2919-2923). -/
def msgMustBeLast (opt rem : List Char) : List Char :=
  '-' :: opt ++ rem ++ " isn't allowed, -".toList ++ opt
    ++ " must be last because it takes an argument".toList

/-- The message of the fused-and-split usage error (2918-2919). -/
def msgFusedAndSplit (opt rem v : List Char) : List Char :=
  '-' :: opt ++ rem ++ "=".toList ++ v ++ " isn't allowed, -".toList
    ++ opt ++ " must be last because it takes an argument".toList

/-- The message of the split-value usage error for a no-argument option
(2953).  The Python f-string interpolates the `denormalize_option`
function object itself (a bug); its address-bearing repr is modelled by
a fixed placeholder. -/
def msgSplitNoArgument (opt v : List Char) : List Char :=
  denormalize_option opt ++ "=".toList ++ v
    ++ " isn't allowed, because <function denormalize_option> doesn't take an argument".toList

/-- The message of the split-value usage error for a multiple-argument
option (2955), with the same function-repr placeholder. -/
def msgSplitMultiple (opt v : List Char) : List Char :=
  denormalize_option opt ++ "=".toList ++ v
    ++ " isn't allowed, because <function denormalize_option> takes multiple arguments".toList

/-- The message of the unsatisfied-arity usage error at termination
(2974-2982). -/
def msgUnsatisfiedGroup (name : List Char) (mn : Int) (mx : ExtInt)
    : List Char :=
  let middle :=
    if ExtInt.fin mn = mx then
      intChars mn ++ " argument".toList
        ++ (if mn = 1 then [] else ['s'])
    else
      "at least ".toList ++ intChars mn
        ++ " arguments but no more than ".toList ++ mx.render
        ++ " arguments".toList
  name ++ " requires ".toList ++ middle
    ++ " in this argument group.".toList

/-- The fatal error categories: `AppealUsageError`,
`AppealConfigurationError`, and internal faults (Python `AssertionError`,
`KeyError`, `ValueError`, `RuntimeError`, `AttributeError`), which no
real run reaches. -/
inductive RunErr where
  | usage (msg : List Char)
  | config (msg : List Char)
  | internal (msg : List Char)
deriving DecidableEq

/-- The value a successful parse returns, together with the observable
frame state: the converter store, the key of the returned command
converter (`self.converters[self.command_converter_key]`, 2775 and
2998), the remaining pushback-capable token sequence, and the shared
root's `force_positional` flag. -/
structure RunResult where
  converters : ConvStore
  rootKey : Nat
  argi : List (List Char)
  forcePositional : Bool
deriving DecidableEq

/-- A `CharmProgramStackEntry` (2059-2082): the saved registers. -/
structure Frame where
  ip : Option Nat
  program : CharmProgram
  converter : Option Nat
  o : Option Val
  group : Option Nat
  groups : List Nat

/-- The full `CharmInterpreter` state during `__call__`: the registers
of `CharmBaseInterpreter` (2011-2029), the per-call `id_to_group` dict
(2432), the option-scope stack, the pushback token sequence `argi`, the
`force_positional` flag (read from the shared root Appeal object at
start, 2436), and the three option-parsing-semantics settings
(4019-4022, 2422-2428).  Live `ArgumentGroup` copies made by `set_group`
are kept in `groupStore` under serial instance keys, so that saved
registers keep referencing the same mutable object. -/
structure InterpState where
  program : CharmProgram
  ip : Option Nat
  callStack : List Frame
  converter : Option Nat
  o : Option Val
  group : Option Nat
  groups : List Nat
  converters : ConvStore
  commandKey : Option Nat
  groupStore : List (Nat × ArgumentGroup)
  nextGroupKey : Nat
  idToGroup : List (Nat × Nat)
  opts : OptionsState
  argi : List (List Char)
  forcePositional : Bool
  optionSpaceOparg : Bool
  shortEqualsOparg : Bool
  shortConcatOparg : Bool

/-- `bool(self.ip)`: the instruction pointer is live (`CharmProgramIterator
.__bool__`, 1990-1991; a `None` ip is falsy). -/
def ipTruthy (st : InterpState) : Bool :=
  match st.ip with
  | some i => decide (i < st.program.opcodes.length)
  | none => false

/-- `bool(cse.ip)` for a saved frame. -/
def Frame.live (f : Frame) : Bool :=
  match f.ip with
  | some i => decide (i < f.program.opcodes.length)
  | none => false

/-- `CharmBaseInterpreter.running` (2102-2103). -/
def InterpState.running (st : InterpState) : Bool :=
  ipTruthy st || st.callStack.any Frame.live

/-- `CharmBaseInterpreter.finish` (2119-2124): pop the call stack and
restore every saved register, or kill the ip when the stack is empty. -/
def finishSt (st : InterpState) : InterpState :=
  match st.callStack with
  | [] => { st with ip := none }
  | f :: rest =>
      { st with
        ip := f.ip, program := f.program, converter := f.converter,
        o := f.o, group := f.group, groups := f.groups, callStack := rest }

/-- `CharmBaseInterpreter.abort` (2126-2128). -/
def abortSt (st : InterpState) : InterpState :=
  { st with ip := none, callStack := [] }

/-- `CharmBaseInterpreter.call` (2110-2117): push the registers, switch
to the option's sub-program, and clear the per-program registers. -/
def callProgram (st : InterpState) (p : CharmProgram) : InterpState :=
  { st with
    callStack := ⟨st.ip, st.program, st.converter, st.o, st.group,
      st.groups⟩ :: st.callStack,
    program := p, ip := some 0, groups := [], converter := none,
    o := none, group := none }

/-- Python truthiness of the `o` register's possible values: `None` and
the empty string are falsy, converter objects are truthy. -/
def valTruthy : Option Val → Bool
  | none => false
  | some (.str s) => !s.isEmpty
  | some (.conv _) => true

/-- The operands of a pending `consume_argument` instruction. -/
structure Pending where
  required : Bool
  is_oparg : Bool

/-- Execution of one instruction in phase one (the body of the
`for ip, op in self` loop, 2539-2683), on the state whose ip has already
advanced past the instruction.  `.inl` is the Python `continue`; `.inr`
is the `break` on `consume_argument` with the pending instruction (after
`abort()` when no command-line arguments remain, 2626-2630). -/
def part1Step (st : InterpState) :
    CharmInstruction → Except RunErr (InterpState ⊕ (InterpState × Pending))
  | .create_converter key isCmd multi =>
      let st := { st with
        converters := alSet key (ConvState.fresh multi) st.converters,
        o := some (.conv key) }
      let st := if isCmd && st.commandKey.isNone then
          { st with commandKey := some key }
        else st
      .ok (.inl st)
  | .load_converter key =>
      .ok (.inl { st with
        converter := if (alGet key st.converters).isSome then some key
          else none })
  | .load_o key =>
      .ok (.inl { st with
        o := if (alGet key st.converters).isSome then some (.conv key)
          else none })
  | .map_option opt prog group =>
      .ok (.inl { st with
        opts := { st.opts with cur := alSet opt (prog, group) st.opts.cur } })
  | .append_to_args disc =>
      match st.converter with
      | none => .error (.internal "append_to_args: converter register is None".toList)
      | some ck =>
        match st.o with
        | none => .error (.internal "append_to_args: o register is None".toList)
        | some v =>
          if disc then
            match v with
            | .str _ => .error (.internal "queue_converter: o is a string".toList)
            | .conv okey =>
              match queue_converter st.converters ck okey with
              | none => .error (.internal "queue_converter: assert not o.queued".toList)
              | some store => .ok (.inl { st with converters := store })
          else
            match append_converter (st.converters.length + 1)
                st.converters ck v with
            | none => .error (.internal "append_converter failed".toList)
            | some store => .ok (.inl { st with converters := store })
  | .add_to_kwargs name =>
      match st.converter with
      | none => .error (.internal "add_to_kwargs: converter register is None".toList)
      | some ck =>
        match alGet ck st.converters with
        | none => .error (.internal "add_to_kwargs: converter not in store".toList)
        | some conv =>
          match alGet name conv.kwargs_converters with
          | some existing =>
            if valTruthy existing then
              if (match existing, st.o with
                  | some (.conv ekey), some (.conv okey) =>
                      ekey = okey &&
                        (match alGet ekey st.converters with
                          | some c => c.multi
                          | none => false)
                  | _, _ => false) then
                .ok (.inl st)
              else
                .error (.usage " specified more than once.".toList)
            else
              match unqueue (st.converters.length + 1) st.converters
                  ck none with
              | none => .error (.internal "unqueue failed".toList)
              | some store =>
                  .ok (.inl { st with
                    converters := alModify ck (fun c =>
                      { c with kwargs_converters :=
                          alSet name st.o c.kwargs_converters }) store })
          | none =>
              match unqueue (st.converters.length + 1) st.converters
                  ck none with
              | none => .error (.internal "unqueue failed".toList)
              | some store =>
                  .ok (.inl { st with
                    converters := alModify ck (fun c =>
                      { c with kwargs_converters :=
                          alSet name st.o c.kwargs_converters }) store })
  | .consume_argument req oparg =>
      if st.argi.isEmpty then .ok (.inr (abortSt st, ⟨req, oparg⟩))
      else .ok (.inr (st, ⟨req, oparg⟩))
  | .set_group id mn mx opt _rep =>
      let gk := st.nextGroupKey
      .ok (.inl { st with
        group := some gk,
        groups := st.groups ++ [gk],
        groupStore := alSet gk ⟨id, mn, mx, opt, 0, false⟩ st.groupStore,
        idToGroup := alSet id gk st.idToGroup,
        nextGroupKey := gk + 1 })
  | .flush_multioption =>
      match st.o with
      | some (.conv okey) =>
          match alGet okey st.converters with
          | some oc =>
              if oc.multi then
                .ok (.inl { st with
                  converters := alModify okey (fun c =>
                    { c with
                      multi_converters := c.multi_converters
                        ++ [(c.args_converters, c.kwargs_converters)],
                      args_converters := [], kwargs_converters := [],
                      queued := none, args_queue := [] }) st.converters })
              else .error (.internal "flush_multioption: o is not a MultiOption".toList)
          | none => .error (.internal "flush_multioption: o not in store".toList)
      | _ => .error (.internal "flush_multioption: o is not a converter".toList)
  | .jump addr => .ok (.inl { st with ip := some addr })
  | .branch_on_o addr =>
      if valTruthy st.o then .ok (.inl { st with ip := some addr })
      else .ok (.inl st)
  | .end_marker => .ok (.inl st)

/-- Phase one of the `__call__` loop (2539-2691) together with the
iteration protocol of `CharmBaseInterpreter.__next__` (2088-2098):
execute instructions until the program ends (pop the call stack on
program exhaustion; stop with nothing pending once the ip is dead and
the stack empty) or a `consume_argument` is reached (stop with it
pending).  `fuel` bounds the number of iterations; exhausting it is an
artifact of the embedding, reported as an internal error. -/
def part1 : Nat → InterpState → Except RunErr (InterpState × Option Pending)
  | 0, _ => .error (.internal "interpreter fuel exhausted".toList)
  | fuel + 1, st =>
    if !ipTruthy st && st.callStack.isEmpty then
      .ok (st, none)
    else
      match st.ip with
      | none => .error (.internal "ip is None with a nonempty call stack".toList)
      | some i =>
        if h : i < st.program.opcodes.length then
          match part1Step { st with ip := some (i + 1) }
              (st.program.opcodes.get ⟨i, h⟩) with
          | .error e => .error e
          | .ok (.inl st') => part1 fuel st'
          | .ok (.inr (st', p)) => .ok (st', some p)
        else
          part1 fuel (finishSt st)

/-- `a.partition("=")` as the split logic uses it (2836-2840): the text
before the first `=`, and the text after it when one was found (the
split-off value may be the empty string). -/
def partitionEq : List Char → List Char × Option (List Char)
  | [] => ([], none)
  | c :: rest =>
      if c = '=' then ([], some rest)
      else
        let p := partitionEq rest
        (c :: p.1, p.2)

/-- The positional-argument classification (2742-2766): forced
positional mode, no leading dash, a lone `-`, or a pending oparg. -/
def tokenIsPositional (st : InterpState) (pending : Option Pending)
    (a : List Char) : Bool :=
  let doesnt_start_with_a_dash := match a with
    | '-' :: _ => false
    | _ => true
  let is_a_single_dash := a = ['-']
  let is_oparg := match pending with
    | some p => p.is_oparg
    | none => false
  st.forcePositional || doesnt_start_with_a_dash || is_a_single_dash
    || is_oparg

/-- The outcome of phase two: return the command converter, continue the
outer loop with a new state, or raise a fatal error. -/
inductive Part2Out where
  | ret (r : RunResult)
  | cont (st : InterpState)
  | err (e : RunErr)

/-- The tail of the option dispatch (2925-2966), common to long and
short options once the option is resolved and any fused oparg has been
split off: mark the owning group laden, rewind a pending
`consume_argument`, pop the option-scope stack to the resolved option's
token, push a fresh scope, validate and push back the split-off value,
and call the option's sub-program. -/
def invokeOption (st : InterpState) (pending : Option Pending)
    (option : List Char) (prog : CharmProgram) (gid : Nat) (token : Nat)
    (split : Option (List Char)) : Part2Out :=
  match alGet gid st.idToGroup with
  | none => .err (.internal "KeyError: id_to_group".toList)
  | some gk =>
    let st := { st with
      groupStore := alModify gk (fun g => { g with laden := true })
        st.groupStore }
    let rewound : Option InterpState :=
      match pending with
      | none => some st
      | some _ =>
          match st.ip with
          | some (i + 1) => some { st with ip := some i }
          | some 0 => none
          | none => none
    match rewound with
    | none => .err (.internal "rewind_one_instruction failed".toList)
    | some st =>
      match st.opts.popUntilToken token with
      | none => .err (.internal "ValueError: pop_until_token".toList)
      | some opts' =>
        let st := { st with opts := opts'.push }
        match split with
        | some v =>
            if prog.totalMax ≠ .fin 1 then
              if prog.totalMax = .fin 0 then
                .err (.usage (msgSplitNoArgument option v))
              else if prog.totalMax.ge2 then
                .err (.usage (msgSplitMultiple option v))
              else
                .cont (callProgram { st with argi := v :: st.argi } prog)
            else
              .cont (callProgram { st with argi := v :: st.argi } prog)
        | none => .cont (callProgram st prog)

/-- Phase two of the `__call__` loop (2728-2966): consume command-line
arguments.  A positional argument either terminates the parse (nothing
pending; the token is pushed back) or fills the pending
`consume_argument`; `--` turns on forced-positional mode on the shared
root and continues consuming; an option token is split, resolved through
the option-scope stack, and its sub-program called.  The token list
parameter is the current `argi` (kept in sync in the state). -/
def part2go : List (List Char) → InterpState → Option Pending → Part2Out
  | [], st, _ => .cont st
  | a :: rest, st, pending =>
    let st := { st with argi := rest }
    if tokenIsPositional st pending a then
      match pending with
      | none =>
          match st.commandKey with
          | none => .err (.internal "KeyError: command_converter_key".toList)
          | some k =>
            match alGet k st.converters with
            | none => .err (.internal "KeyError: command converter".toList)
            | some _ => .ret ⟨st.converters, k, a :: rest, st.forcePositional⟩
      | some p =>
          let st := { st with o := some (.str a) }
          let st := match st.group with
            | some gk =>
                { st with
                  groupStore := alModify gk (fun g =>
                    { g with count := g.count + 1, laden := true })
                    st.groupStore }
            | none => st
          let st := if p.is_oparg then st
            else { st with opts := st.opts.unmapAll }
          .cont st
    else if !st.optionSpaceOparg then
      .err (.config "oops, currently the only supported value of option_space_oparg is True".toList)
    else if a = ['-', '-'] then
      part2go rest { st with forcePositional := true } pending
    else
      let double_dash := a.take 2 = ['-', '-']
      let sp := if double_dash || st.shortEqualsOparg then partitionEq a
        else (a, none)
      let a2 := sp.1
      let split0 := sp.2
      if double_dash then
        match st.opts.find a2 with
        | none => .err (.usage (optionFailureMsg st.program a2))
        | some ((prog, gid), token) =>
            invokeOption st pending a2 prog gid token split0
      else
        match a2 with
        | _ :: c :: remainder =>
          let option := [c]
          match st.opts.find option with
          | none => .err (.usage (optionFailureMsg st.program option))
          | some ((prog, gid), token) =>
              if remainder.isEmpty then
                invokeOption st pending option prog gid token split0
              else if prog.totalMax = .fin 0 then
                invokeOption { st with argi := ('-' :: remainder) :: st.argi }
                  pending option prog gid token split0
              else if prog.totalMax.ge2 then
                .err (.usage (msgTakesArguments option remainder
                  prog.totalMin prog.totalMax))
              else if st.shortConcatOparg && prog.totalMin = 0 then
                match split0 with
                | some v => .err (.usage (msgFusedAndSplit option remainder v))
                | none =>
                    invokeOption st pending option prog gid token
                      (some remainder)
              else
                if prog.totalMin = 1 && prog.totalMax = .fin 1 then
                  .err (.usage (msgMustBeLast option remainder))
                else
                  .err (.internal "assert minimum == maximum == 1".toList)
        | _ => .err (.internal "IndexError: short option token".toList)

/-- Phase two, entered on the state's current `argi`. -/
def part2 (st : InterpState) (pending : Option Pending) : Part2Out :=
  part2go st.argi st pending

/-- `CharmBaseInterpreter.unwind` (2130-2133): `finish()` until the call
stack is empty (restoring registers from each frame), then `abort()`. -/
def unwindSteps : Nat → InterpState → InterpState
  | 0, st => abortSt st
  | n + 1, st => unwindSteps n (finishSt st)

/-- Termination of `__call__` (2968-2998): unwind, validate the final
active argument group, and return the command converter. -/
def finishRun (st : InterpState) : Except RunErr RunResult :=
  let st := unwindSteps st.callStack.length st
  match st.group with
  | none => .error (.internal "assert ag: group register is None".toList)
  | some gk =>
    match alGet gk st.groupStore with
    | none => .error (.internal "group instance missing".toList)
    | some ag =>
      if ag.satisfied then
        match st.commandKey with
        | none => .error (.internal "KeyError: command_converter_key".toList)
        | some k =>
          match alGet k st.converters with
          | none => .error (.internal "KeyError: command converter".toList)
          | some _ => .ok ⟨st.converters, k, st.argi, st.forcePositional⟩
      else
        .error (.usage (msgUnsatisfiedGroup st.program.name ag.minimum
          ag.maximum))

/-- The outer `while self.running() or argi` loop of `__call__` (2510):
each iteration runs phase one then phase two; `fuel` bounds both the
number of iterations and each phase-one instruction budget. -/
def runLoop : Nat → InterpState → Except RunErr RunResult
  | 0, _ => .error (.internal "run fuel exhausted".toList)
  | fuel + 1, st =>
      if st.running || !st.argi.isEmpty then
        match part1 (fuel + 1) st with
        | .error e => .error e
        | .ok (st', pending) =>
            match part2 st' pending with
            | .ret r => .ok r
            | .err e => .error e
            | .cont st'' => runLoop fuel st''
      else
        finishRun st

/-- Running the interpreter: `CharmInterpreter(processor, program)` then
`__call__`, with the default option-parsing semantics (4019-4022) and
the shared root's `force_positional` flag read at start (2436). -/
def runInterp (prog : CharmProgram) (fuel : Nat)
    (tokens : List (List Char)) (rootForce : Bool) :
    Except RunErr RunResult :=
  runLoop fuel
    { program := prog, ip := some 0, callStack := [], converter := none,
      o := none, group := none, groups := [], converters := [],
      commandKey := none, groupStore := [], nextGroupKey := 0,
      idToGroup := [], opts := OptionsState.init, argi := tokens,
      forcePositional := rootForce, optionSpaceOparg := true,
      shortEqualsOparg := true, shortConcatOparg := true }

/-- The positional arguments an option's converter has gathered after a
run: the `args_converters` list of the converter under `key`.  This is
what final conversion hands to the option's callable. -/
def optionDelivered (r : Except RunErr RunResult) (key : Nat) :
    Option (List Val) :=
  match r with
  | .ok res => (alGet key res.converters).map ConvState.args_converters
  | .error _ => none

/-- The compiled sub-program of child option `-b` of `a_opt` (a no-value
option): create the option's converter, store it into `-a`'s converter
under keyword `b`.  Mirrors the compiler's output shape for a
keyword-only boolean parameter (initialization: `set_group`,
`create_converter`; body: `load_converter`, `load_o`,
`add_to_kwargs`). -/
def c3ProgB : CharmProgram :=
  .mk "b".toList
    [.set_group 20 0 (.fin 0) false false,
      .create_converter 2 true false,
      .load_converter 1, .load_o 2, .add_to_kwargs "b".toList,
      .end_marker]
    0 (.fin 0) []

/-- The compiled sub-program of option `-a` for `a_opt(*, b=False)`: it
maps the child option `-b` and stores its own converter into the command
converter under keyword `aopt`.  Its `options` table records `-b`'s
parent as `-a` (1363). -/
def c3ProgA : CharmProgram :=
  .mk "a".toList
    [.set_group 10 0 (.fin 0) false false,
      .create_converter 1 true false,
      .map_option "b".toList c3ProgB 10,
      .load_converter 0, .load_o 1, .add_to_kwargs "aopt".toList,
      .end_marker]
    0 (.fin 0) [("b".toList, some "-a".toList)]

/-- The compiled command program for `cmd(pos, *, aopt: a_opt = None)`:
one required positional, option `-a` mapping child `-b`.  The program's
`options` table maps `a` to `None` (top level) and `b` to `-a`
(propagated from the sub-program, 1397). -/
def c3Root : CharmProgram :=
  .mk "cmd".toList
    [.set_group 0 1 (.fin 1) false false,
      .create_converter 0 true false,
      .map_option "a".toList c3ProgA 0,
      .load_converter 0,
      .consume_argument true false,
      .append_to_args false,
      .end_marker]
    1 (.fin 1) [("a".toList, none), ("b".toList, some "-a".toList)]

/-- The compiled sub-program of an option `-f` taking exactly one
optional string value (`f_opt(value='x')`): the pre-created required
group holds the converter creation and keyword store; the optional group
(bounds 1..1 after finalization) consumes the oparg and appends it to
the option's converter. -/
def c7ProgF : CharmProgram :=
  .mk "f".toList
    [.set_group 10 0 (.fin 0) false false,
      .create_converter 1 true false,
      .load_converter 0, .load_o 1, .add_to_kwargs "f".toList,
      .set_group 11 1 (.fin 1) true false,
      .load_converter 1,
      .consume_argument false true,
      .append_to_args false,
      .end_marker]
    0 (.fin 1) []

/-- A command whose only parameter is the option `-f` with exactly one
optional value. -/
def c7Root : CharmProgram :=
  .mk "cmd".toList
    [.set_group 0 0 (.fin 0) false false,
      .create_converter 0 true false,
      .map_option "f".toList c7ProgF 0,
      .end_marker]
    0 (.fin 0) [("f".toList, none)]

/-- The sub-program of an option `-f` taking exactly one required string
value (so the fused form must be rejected). -/
def c7ProgFreq : CharmProgram :=
  .mk "freq".toList
    [.set_group 10 1 (.fin 1) false false,
      .create_converter 1 true false,
      .load_converter 0, .load_o 1, .add_to_kwargs "f".toList,
      .load_converter 1,
      .consume_argument true true,
      .append_to_args false,
      .end_marker]
    1 (.fin 1) []

/-- A command whose only parameter is the option `-f` with one required
value. -/
def c7RootFreq : CharmProgram :=
  .mk "cmd".toList
    [.set_group 0 0 (.fin 0) false false,
      .create_converter 0 true false,
      .map_option "f".toList c7ProgFreq 0,
      .end_marker]
    0 (.fin 0) [("f".toList, none)]

/-- The sub-program of a no-value option named by one character `c`
storing its converter (key `key`) into the command converter under
keyword name `kw`, in group id `gid`: the shape the compiler emits for
a keyword-only boolean parameter. -/
def boolOptProg (nm : List Char) (key gid : Nat) (kw : List Char) :
    CharmProgram :=
  .mk nm
    [.set_group gid 0 (.fin 0) false false,
      .create_converter key true false,
      .load_converter 0, .load_o key, .add_to_kwargs kw,
      .end_marker]
    0 (.fin 0) []

/-- A command whose only parameter is the no-value option `-f`. -/
def c7RootF0 : CharmProgram :=
  .mk "cmd".toList
    [.set_group 0 0 (.fin 0) false false,
      .create_converter 0 true false,
      .map_option "f".toList (boolOptProg "f0".toList 1 10 "f".toList) 0,
      .end_marker]
    0 (.fin 0) [("f".toList, none)]

/-- The compiled command program for a command with three options
`-a -b -c` and no positional parameters: the claim C4 scenario, with the
three option sub-programs as parameters. -/
def threeOptRoot (pa pb pc : CharmProgram) : CharmProgram :=
  .mk "cmd".toList
    [.set_group 0 0 (.fin 0) false false,
      .create_converter 0 true false,
      .map_option "a".toList pa 0,
      .map_option "b".toList pb 0,
      .map_option "c".toList pc 0,
      .end_marker]
    0 (.fin 0) [("a".toList, none), ("b".toList, none), ("c".toList, none)]

/-- The state carried by either outcome of `part1Step`. -/
def outState : InterpState ⊕ (InterpState × Pending) → InterpState
  | .inl s => s
  | .inr (s, _) => s

/-- Instructions that neither consume a command-line argument nor map an
option: the instructions a no-value option's sub-program is built from.
Running them touches neither the option-scope stack nor the token
sequence. -/
def benignInstr : CharmInstruction → Bool
  | .consume_argument _ _ => false
  | .map_option _ _ _ => false
  | _ => true

/-- A program all of whose instructions are benign. -/
def progBenign (p : CharmProgram) : Bool :=
  p.opcodes.all benignInstr

/-- A saved frame that can only resume into benign instructions: its
saved ip is dead, or its whole program is benign. -/
def frameBenign (f : Frame) : Bool :=
  !f.live || progBenign f.program

/-- An interpreter state from which phase one can only execute benign
instructions. -/
def stBenign (st : InterpState) : Bool :=
  (!ipTruthy st || progBenign st.program) && st.callStack.all frameBenign

/-- A concrete interpreter state for the C8 scenario: the command
program has finished (dead ip, empty call stack), its command converter
exists, and the next token is a positional argument (a would-be
subcommand name). -/
def c8State : InterpState :=
  { program := c7Root, ip := some 4, callStack := [], converter := some 0,
    o := none, group := some 0,
    groups := [0], converters := [(0, ConvState.fresh false)],
    commandKey := some 0,
    groupStore := [(0, ⟨0, 0, .fin 0, false, 0, false⟩)], nextGroupKey := 1,
    idToGroup := [(0, 0)], opts := OptionsState.init,
    argi := ["sub".toList], forcePositional := false,
    optionSpaceOparg := true, shortEqualsOparg := true,
    shortConcatOparg := true }

-- ===== Theorems =====

/-- C1: for every ArgumentGroup state with `0 ≤ count`, `satisfied()`
returns true iff `(optional ∧ count = 0 ∧ ¬laden) ∨ (min ≤ count ≤ max)`. -/
theorem argument_group_satisfied_iff (g : ArgumentGroup) (h : 0 ≤ g.count) :
    g.satisfied = true ↔
      ((g.optional = true ∧ g.count = 0 ∧ g.laden = false) ∨
        (g.minimum ≤ g.count ∧ ExtInt.leInt g.count g.maximum = true)) := by
  unfold ArgumentGroup.satisfied
  by_cases hopt : g.optional <;> by_cases hl : g.laden <;>
    by_cases hc : g.count = 0 <;>
    simp [hopt, hl, hc]

/-- Witness for C1 at a concrete state: an optional, unladen, uncounted
group with impossible bounds is still satisfied. -/
theorem argument_group_satisfied_iff_witness :
    (0 : Int) ≤ (ArgumentGroup.mk 0 5 (.fin 2) true 0 false).count ∧
      ((ArgumentGroup.mk 0 5 (.fin 2) true 0 false).satisfied = true ↔
        (((ArgumentGroup.mk 0 5 (.fin 2) true 0 false).optional = true ∧
            (ArgumentGroup.mk 0 5 (.fin 2) true 0 false).count = 0 ∧
            (ArgumentGroup.mk 0 5 (.fin 2) true 0 false).laden = false) ∨
          ((ArgumentGroup.mk 0 5 (.fin 2) true 0 false).minimum ≤
              (ArgumentGroup.mk 0 5 (.fin 2) true 0 false).count ∧
            ExtInt.leInt (ArgumentGroup.mk 0 5 (.fin 2) true 0 false).count
              (ArgumentGroup.mk 0 5 (.fin 2) true 0 false).maximum = true))) :=
  ⟨by decide, argument_group_satisfied_iff (ArgumentGroup.mk 0 5 (.fin 2) true 0 false) (by decide)⟩

/-- C9: on the domain accepted by `normalize_option`'s asserts,
`denormalize_option` is a left inverse of `normalize_option`. -/
theorem denormalize_normalize_option (s : List Char)
    (hhead : s.take 1 = ['-']) (h1 : s.length ≠ 1) (h3 : s.length ≠ 3)
    (hform : s.length = 2 ∨ s.take 2 = ['-', '-']) :
    denormalize_option (normalize_option s) = s := by
  unfold normalize_option denormalize_option
  by_cases h2 : s.length = 2
  · match s, h2 with
    | [a, b], _ =>
      simp only [List.take, List.cons.injEq] at hhead
      simp [hhead.1]
  · simp only [if_neg h2]
    rw [if_neg h1]

/-- Witness for C9 at the concrete options `-v` and `--verbose`. -/
theorem denormalize_normalize_option_witness :
    denormalize_option (normalize_option ['-', 'v']) = ['-', 'v'] ∧
      denormalize_option
          (normalize_option ['-', '-', 'v', 'e', 'r', 'b']) =
        ['-', '-', 'v', 'e', 'r', 'b'] :=
  ⟨denormalize_normalize_option ['-', 'v'] (by decide) (by decide) (by decide)
      (Or.inl (by decide)),
    denormalize_normalize_option ['-', '-', 'v', 'e', 'r', 'b'] (by decide)
      (by decide) (by decide) (Or.inr (by decide))⟩

/-- C5 counterexample: with a `ConsumeArgument` emitted before the first
`MapOption` of `-o` but none between the two `MapOption` emissions,
compilation nevertheless succeeds, refuting the claim that it raises a
configuration error whenever no `ConsumeArgument` separates them. -/
theorem duplicate_option_counterexample :
    (dupOptRun (dupOptUnseparated ['o'])).isOk = true ∧
      (dupOptRun (dupOptSeparated ['o'])).isOk = true := by
  constructor <;> rfl

/-- C5 amended: within one argument group, with `n` `ConsumeArgument`
emissions before the first `MapOption` of an option and `m` between its
two `MapOption` emissions, compilation succeeds iff at least one
`ConsumeArgument` was emitted before the second `MapOption` — not
necessarily between the two emissions. -/
theorem duplicate_option_amended (o : List Char) (n m : Nat) :
    (dupOptRun (List.replicate n CompileEvent.consume_argument
        ++ [.map_option o]
        ++ List.replicate m CompileEvent.consume_argument
        ++ [.map_option o])).isOk = true
      ↔ 0 < n + m := by
  have hrep : ∀ (k : Nat) (st : DupOptState) (rest : List CompileEvent),
      st.ag_duplicate_options = [] →
      dupOptRunFrom st (List.replicate k CompileEvent.consume_argument ++ rest)
        = dupOptRunFrom
            ⟨st.ag_options, [], st.dup_assembler || decide (0 < k)⟩ rest := by
    intro k
    induction k with
    | zero =>
        intro st rest hd
        cases st
        simp only [List.replicate_zero, List.nil_append]
        simp_all
    | succ k ih =>
        intro st rest hd
        simp only [List.replicate_succ, List.cons_append, dupOptRunFrom,
          dupOptStep, List.append_eq]
        rw [ih _ _ rfl]
        simp
  unfold dupOptRun
  rw [List.append_assoc, List.append_assoc]
  rw [hrep _ _ _ rfl]
  simp only [List.cons_append, List.nil_append, List.append_eq,
    dupOptRunFrom, dupOptStep, List.not_mem_nil, if_false, Bool.false_or]
  rw [hrep _ _ _ rfl]
  simp only [dupOptRunFrom, dupOptStep, List.mem_singleton, if_pos rfl,
    List.not_mem_nil, if_false]
  by_cases hn : 0 < n <;> by_cases hm : 0 < m <;>
    simp [hn, hm, Except.isOk, Except.toBool]

theorem alGet_alModify_other {α β : Type} [DecidableEq α] {k k' : α}
    (f : β → β) (l : List (α × β)) (h : k' ≠ k) :
    alGet k (alModify k' f l) = alGet k l := by
  induction l with
  | nil => rfl
  | cons hd tl ih =>
      obtain ⟨a, b⟩ := hd
      by_cases ha : a = k'
      · subst ha
        simp [alModify, alGet, h]
      · simp only [alModify, if_neg ha, alGet]
        by_cases hk : a = k
        · simp [hk]
        · simp [hk, ih]

theorem alGet_alModify_self {α β : Type} [DecidableEq α] {k : α}
    (f : β → β) (l : List (α × β)) :
    alGet k (alModify k f l) = (alGet k l).map f := by
  induction l with
  | nil => rfl
  | cons hd tl ih =>
      obtain ⟨a, b⟩ := hd
      by_cases ha : a = k
      · simp [alModify, alGet, ha]
      · simp [alModify, alGet, ha, ih]

theorem flushArgsQueue_parent (p y : Nat) (hpy : p ≠ y) :
    ∀ (q0 : List Nat) (qrest : List Nat) (store : ConvStore) (ps : ConvState),
      alGet p store = some ps → ps.args_queue = q0 ++ y :: qrest →
      y ∉ q0 → p ∉ q0 →
      alGet p (flushArgsQueue p y (q0 ++ y :: qrest) store)
        = some { ps with
            args_queue := qrest,
            args_converters := ps.args_converters
              ++ (q0 ++ [y]).map Val.conv } := by
  intro q0
  induction q0 with
  | nil =>
      intro qrest store ps hp hq hy0 hp0
      simp only [List.nil_append, flushArgsQueue, eq_self_iff_true, if_true]
      rw [alGet_alModify_other _ _ (Ne.symm hpy)]
      rw [alGet_alModify_self, hp]
      simp
  | cons c q0' ih =>
      intro qrest store ps hp hq hy0 hp0
      simp only [List.mem_cons, not_or] at hy0 hp0
      simp only [List.cons_append, flushArgsQueue]
      rw [if_neg (fun h => hy0.1 h.symm)]
      have hp' : alGet p (alModify c (fun s => { s with queued := none })
          (alModify p (fun s => { s with
            args_queue := q0' ++ y :: qrest,
            args_converters := s.args_converters ++ [.conv c] }) store))
          = some { ps with
              args_queue := q0' ++ y :: qrest,
              args_converters := ps.args_converters ++ [.conv c] } := by
        rw [alGet_alModify_other _ _ (fun h => hp0.1 h.symm)]
        rw [alGet_alModify_self, hp]
        rfl
      simp only [List.append_eq]
      rw [ih qrest _ _ hp' rfl hy0.2 hp0.2]
      simp

/-- C6: if converters X then Y are queued, in that order, onto the same
parent's pending queue, and Y is then promoted (unqueued) first, the
parent flushes its queue up to and including Y: X moves from the pending
queue to the parent's materialized `args_converters` before Y does, so
the materialized list preserves queueing order. -/
theorem converter_unqueue_preserves_order
    (store : ConvStore) (p x y n : Nat) (ps xs ys : ConvState)
    (hp : alGet p store = some ps) (hx : alGet x store = some xs)
    (hy : alGet y store = some ys)
    (hpq : ps.queued = none) (hxq : xs.queued = none) (hyq : ys.queued = none)
    (hpx : p ≠ x) (hpy : p ≠ y) (hxy : x ≠ y)
    (hyq0 : y ∉ ps.args_queue) (hpq0 : p ∉ ps.args_queue) :
    ∃ store1 store2 store3,
      queue_converter store p x = some store1 ∧
      queue_converter store1 p y = some store2 ∧
      unqueue (n + 2) store2 y none = some store3 ∧
      alGet p store3 = some { ps with
        args_queue := [],
        args_converters := ps.args_converters
          ++ (ps.args_queue ++ [x]).map Val.conv ++ [Val.conv y] } := by
  have hpst2 : alGet p (alModify p
      (fun c => { c with args_queue := c.args_queue ++ [y] })
      (alModify y (fun c => { c with queued := some p })
        (alModify p (fun c => { c with args_queue := c.args_queue ++ [x] })
          (alModify x (fun c => { c with queued := some p }) store))))
      = some { ps with args_queue := (ps.args_queue ++ [x]) ++ [y] } := by
    rw [alGet_alModify_self, alGet_alModify_other _ _ hpy.symm,
      alGet_alModify_self, alGet_alModify_other _ _ hpx.symm, hp]
    rfl
  have hyst2 : alGet y (alModify p
      (fun c => { c with args_queue := c.args_queue ++ [y] })
      (alModify y (fun c => { c with queued := some p })
        (alModify p (fun c => { c with args_queue := c.args_queue ++ [x] })
          (alModify x (fun c => { c with queued := some p }) store))))
      = some { ys with queued := some p } := by
    rw [alGet_alModify_other _ _ hpy, alGet_alModify_self,
      alGet_alModify_other _ _ hpy, alGet_alModify_other _ _ hxy, hy]
    rfl
  have h1 : queue_converter store p x
      = some (alModify p
          (fun c => { c with args_queue := c.args_queue ++ [x] })
          (alModify x (fun c => { c with queued := some p }) store)) := by
    simp only [queue_converter, hx]
    rw [if_pos hxq]
  have h2 : queue_converter (alModify p
        (fun c => { c with args_queue := c.args_queue ++ [x] })
        (alModify x (fun c => { c with queued := some p }) store)) p y
      = some (alModify p
          (fun c => { c with args_queue := c.args_queue ++ [y] })
          (alModify y (fun c => { c with queued := some p })
            (alModify p (fun c => { c with args_queue := c.args_queue ++ [x] })
              (alModify x (fun c => { c with queued := some p }) store)))) := by
    simp only [queue_converter, alGet_alModify_other _ _ hpy,
      alGet_alModify_other _ _ hxy, hy]
    rw [if_pos hyq]
  have hinner : unqueue (n + 1) (alModify p
        (fun c => { c with args_queue := c.args_queue ++ [y] })
        (alModify y (fun c => { c with queued := some p })
          (alModify p (fun c => { c with args_queue := c.args_queue ++ [x] })
            (alModify x (fun c => { c with queued := some p }) store)))) p (some y)
      = some (flushArgsQueue p y ((ps.args_queue ++ [x]) ++ [y])
          (alModify p
            (fun c => { c with args_queue := c.args_queue ++ [y] })
            (alModify y (fun c => { c with queued := some p })
              (alModify p (fun c => { c with args_queue := c.args_queue ++ [x] })
                (alModify x (fun c => { c with queued := some p }) store))))) := by
    simp only [unqueue, hpst2, hpq]
    rw [if_pos (by simp)]
  have houter : unqueue (n + 2) (alModify p
        (fun c => { c with args_queue := c.args_queue ++ [y] })
        (alModify y (fun c => { c with queued := some p })
          (alModify p (fun c => { c with args_queue := c.args_queue ++ [x] })
            (alModify x (fun c => { c with queued := some p }) store)))) y none
      = some (alModify y (fun c => { c with queued := none })
          (flushArgsQueue p y ((ps.args_queue ++ [x]) ++ [y])
            (alModify p
              (fun c => { c with args_queue := c.args_queue ++ [y] })
              (alModify y (fun c => { c with queued := some p })
                (alModify p
                  (fun c => { c with args_queue := c.args_queue ++ [x] })
                  (alModify x
                    (fun c => { c with queued := some p }) store)))))) := by
    simp only [unqueue, hyst2, hpst2, hpq]
    rw [if_pos (by simp)]
  have hq0y : y ∉ ps.args_queue ++ [x] := by
    simp [hyq0, Ne.symm hxy]
  have hq0p : p ∉ ps.args_queue ++ [x] := by
    simp [hpq0, hpx]
  have hflush := flushArgsQueue_parent p y hpy (ps.args_queue ++ [x]) []
    (alModify p (fun c => { c with args_queue := c.args_queue ++ [y] })
      (alModify y (fun c => { c with queued := some p })
        (alModify p (fun c => { c with args_queue := c.args_queue ++ [x] })
          (alModify x (fun c => { c with queued := some p }) store))))
    { ps with args_queue := (ps.args_queue ++ [x]) ++ [y] } hpst2 rfl hq0y hq0p
  refine ⟨_, _, _, h1, h2, houter, ?_⟩
  rw [alGet_alModify_other _ _ (Ne.symm hpy)]
  rw [hflush]
  simp

/-- Witness for C6 at a concrete three-converter store: parent 0 with
children 1 then 2 queued in that order, promoting 2 first. -/
theorem converter_unqueue_preserves_order_witness :
    ∃ store1 store2 store3,
      queue_converter [(0, ConvState.fresh false), (1, ConvState.fresh false),
        (2, ConvState.fresh false)] 0 1 = some store1 ∧
      queue_converter store1 0 2 = some store2 ∧
      unqueue (0 + 2) store2 2 none = some store3 ∧
      alGet 0 store3 = some { ConvState.fresh false with
        args_queue := [],
        args_converters := (ConvState.fresh false).args_converters
          ++ ((ConvState.fresh false).args_queue ++ [1]).map Val.conv
          ++ [Val.conv 2] } :=
  converter_unqueue_preserves_order
    [(0, ConvState.fresh false), (1, ConvState.fresh false),
      (2, ConvState.fresh false)] 0 1 2 0
    (ConvState.fresh false) (ConvState.fresh false) (ConvState.fresh false)
    rfl rfl rfl rfl rfl rfl (by decide) (by decide) (by decide)
    (by decide) (by decide)

/-- C3 counterexample: after invoking `-a` (which maps child option
`-b`) and consuming a positional token, presenting `-b` again raises a
fatal usage error, but its message is not the "unknown option" message:
`-b` is in the program's option table, so `Options.__getitem__` produces
the must-follow-parent message instead (2407-2413). -/
theorem scope_collapse_error_counterexample :
    runInterp c3Root 100 ["-a".toList, "p".toList, "-b".toList] false
        = .error (.usage
          "-b can't be used here, it must be used immediately after -a".toList)
      ∧ "-b can't be used here, it must be used immediately after -a".toList
          ≠ msgUnknownOption "b".toList := by
  exact ⟨rfl, by decide⟩

/-- C3 amended: after invoking option `-a` which maps child option `-b`,
consuming a positional (non-oparg) token collapses the option-scope
stack to its base, and presenting `-b` again raises a fatal usage error
whose message says `-b` can't be used here and must be used immediately
after `-a`. -/
theorem scope_collapse_error_amended :
    runInterp c3Root 100 ["-a".toList, "p".toList, "-b".toList] false
      = .error (.usage (msgMustFollowParent "b".toList "-a".toList)) := by
  rfl

/-- C7: for option `-f` accepting exactly one optional value, both
`-f=hi` and `-fhi` deliver the value `hi` to the option's converter;
and the fused form is accepted only in the exactly-one-optional-value
case: with one required value `-fhi` is a usage error, and with no value
`-fhi` is bundled, making `-h` an unknown option. -/
theorem fused_oparg_delivery :
    optionDelivered (runInterp c7Root 100 ["-f=hi".toList] false) 1
        = some [.str "hi".toList]
      ∧ optionDelivered (runInterp c7Root 100 ["-fhi".toList] false) 1
        = some [.str "hi".toList]
      ∧ runInterp c7RootFreq 100 ["-fhi".toList] false
        = .error (.usage (msgMustBeLast "f".toList "hi".toList))
      ∧ runInterp c7RootF0 100 ["-fhi".toList] false
        = .error (.usage (msgUnknownOption "h".toList)) := by
  exact ⟨rfl, rfl, rfl, rfl⟩

/-- C8: when phase two meets a positional token while no
`consume_argument` is pending (the program has finished), it pushes the
token back onto the input sequence and returns the current root
converter, raising no error and consuming nothing. -/
theorem finished_positional_pushback (st : InterpState) (a : List Char)
    (rest : List (List Char)) (k : Nat) (c : ConvState)
    (hargi : st.argi = a :: rest)
    (hpos : tokenIsPositional st none a = true)
    (hkey : st.commandKey = some k)
    (hconv : alGet k st.converters = some c) :
    part2 st none
      = .ret ⟨st.converters, k, a :: rest, st.forcePositional⟩ := by
  obtain ⟨p1, i1, cs1, cv1, o1, g1, gs1, convs1, ck1, gst1, ngk1, idg1, op1,
    ar1, fp1, so1, se1, sc1⟩ := st
  dsimp only at hargi hpos hkey hconv ⊢
  subst hargi
  subst hkey
  unfold part2
  simp only [part2go, tokenIsPositional] at hpos ⊢
  rw [if_pos hpos]
  simp only [hconv]

/-- Witness for C8 at `c8State`: token `sub` comes back and the command
converter (key 0) is returned. -/
theorem finished_positional_pushback_witness :
    part2 c8State none
      = .ret ⟨[(0, ConvState.fresh false)], 0, ["sub".toList], false⟩ :=
  finished_positional_pushback c8State "sub".toList [] 0
    (ConvState.fresh false) rfl (by decide) rfl rfl

theorem part1Step_frame (st : InterpState) (op : CharmInstruction)
    (out : InterpState ⊕ InterpState × Pending)
    (h : part1Step st op = .ok out) :
    (outState out).forcePositional = st.forcePositional
    ∧ (outState out).argi = st.argi
    ∧ (outState out).optionSpaceOparg = st.optionSpaceOparg
    ∧ (outState out).shortEqualsOparg = st.shortEqualsOparg
    ∧ (outState out).shortConcatOparg = st.shortConcatOparg := by
  cases op <;> simp only [part1Step] at h <;>
    (repeat' split at h) <;>
    first
      | (cases h; exact ⟨rfl, rfl, rfl, rfl, rfl⟩)
      | exact absurd h (by simp)

theorem finishSt_frame (st : InterpState) :
    (finishSt st).forcePositional = st.forcePositional
    ∧ (finishSt st).argi = st.argi
    ∧ (finishSt st).optionSpaceOparg = st.optionSpaceOparg
    ∧ (finishSt st).shortEqualsOparg = st.shortEqualsOparg
    ∧ (finishSt st).shortConcatOparg = st.shortConcatOparg := by
  unfold finishSt
  split <;> exact ⟨rfl, rfl, rfl, rfl, rfl⟩

theorem part1_frame (fuel : Nat) : ∀ (st s : InterpState) (p : Option Pending),
    part1 fuel st = .ok (s, p) →
    s.forcePositional = st.forcePositional
    ∧ s.argi = st.argi
    ∧ s.optionSpaceOparg = st.optionSpaceOparg
    ∧ s.shortEqualsOparg = st.shortEqualsOparg
    ∧ s.shortConcatOparg = st.shortConcatOparg := by
  induction fuel with
  | zero =>
      intro st s p h
      simp [part1] at h
  | succ fuel ih =>
      intro st s p h
      rw [part1] at h
      split at h
      · cases h
        exact ⟨rfl, rfl, rfl, rfl, rfl⟩
      · split at h
        · exact absurd h (by simp)
        · split at h
          · split at h
            · exact absurd h (by simp)
            · rename_i st' heq
              have hf := part1Step_frame _ _ _ heq
              have hi := ih _ _ _ h
              simp only [outState] at hf
              exact ⟨hi.1.trans hf.1, hi.2.1.trans hf.2.1,
                hi.2.2.1.trans hf.2.2.1, hi.2.2.2.1.trans hf.2.2.2.1,
                hi.2.2.2.2.trans hf.2.2.2.2⟩
            · rename_i pr heq
              obtain ⟨st', pend⟩ := pr
              cases h
              have hf := part1Step_frame _ _ _ heq
              simp only [outState] at hf
              exact hf
          · have hi := ih _ _ _ h
            have hf := finishSt_frame st
            exact ⟨hi.1.trans hf.1, hi.2.1.trans hf.2.1,
              hi.2.2.1.trans hf.2.2.1, hi.2.2.2.1.trans hf.2.2.2.1,
              hi.2.2.2.2.trans hf.2.2.2.2⟩

theorem part2go_force (toks : List (List Char)) (st : InterpState)
    (pending : Option Pending) (hf : st.forcePositional = true) :
    (match part2go toks st pending with
     | .cont s => s.forcePositional = true
     | .ret r => r.forcePositional = true
     | .err _ => True) := by
  cases toks with
  | nil => simp [part2go, hf]
  | cons a rest =>
      simp only [part2go]
      have hpos : tokenIsPositional { st with argi := rest } pending a
          = true := by
        simp [tokenIsPositional, hf]
      rw [if_pos hpos]
      cases pending with
      | none =>
          cases hck : st.commandKey with
          | none => simp [hck]
          | some k =>
              cases hcv : alGet k st.converters with
              | none => simp [hck, hcv]
              | some c => simp [hck, hcv, hf]
      | some p =>
          cases hg : st.group <;> cases hop : p.is_oparg <;>
            simp [hg, hop, hf]

theorem unwindSteps_force (n : Nat) :
    ∀ st : InterpState,
      (unwindSteps n st).forcePositional = st.forcePositional := by
  induction n with
  | zero =>
      intro st
      rfl
  | succ n ih =>
      intro st
      exact (ih (finishSt st)).trans (finishSt_frame st).1

theorem finishRun_force (st : InterpState) (r : RunResult)
    (h : finishRun st = .ok r) : r.forcePositional = st.forcePositional := by
  unfold finishRun at h
  dsimp only at h
  split at h
  · exact absurd h (by simp)
  · split at h
    · exact absurd h (by simp)
    · split at h
      · split at h
        · exact absurd h (by simp)
        · split at h
          · exact absurd h (by simp)
          · cases h
            exact unwindSteps_force _ st
      · exact absurd h (by simp)

theorem runLoop_force (fuel : Nat) : ∀ (st : InterpState) (r : RunResult),
    runLoop fuel st = .ok r → st.forcePositional = true →
    r.forcePositional = true := by
  induction fuel with
  | zero =>
      intro st r h
      simp [runLoop] at h
  | succ fuel ih =>
      intro st r h hf
      rw [runLoop] at h
      split at h
      · split at h
        · exact absurd h (by simp)
        · rename_i st' pending heq1
          have hf' : st'.forcePositional = true :=
            (part1_frame _ _ _ _ heq1).1.trans hf
          have hm := part2go_force st'.argi st' pending hf'
          rw [show part2 st' pending = part2go st'.argi st' pending from rfl]
            at h
          split at h
          · rename_i r' heq2
            rw [heq2] at hm
            cases h
            exact hm
          · exact absurd h (by simp)
          · rename_i st'' heq2
            rw [heq2] at hm
            exact ih _ _ h hm
      · exact (finishRun_force _ _ h).trans hf

/-- C10: consuming `--` sets the forced-positional flag (on the local
variable and the shared root object together, 2805); no interpreter code
ever resets it, so a successful run that started with the flag set ends
with it still set (the interpreter only ever writes `True`); and any
interpreter run that reads the flag as `True` at start classifies every
token of its own command line as positional. -/
theorem force_positional_is_sticky :
    (∀ (st : InterpState) (rest : List (List Char)),
      st.forcePositional = false → st.optionSpaceOparg = true →
      part2go ("--".toList :: rest) st none
        = part2go rest { st with argi := rest, forcePositional := true }
            none)
    ∧ (∀ (fuel : Nat) (st : InterpState) (r : RunResult),
        runLoop fuel st = .ok r → st.forcePositional = true →
        r.forcePositional = true)
    ∧ (∀ (st : InterpState) (pending : Option Pending) (a : List Char),
        st.forcePositional = true → tokenIsPositional st pending a = true) := by
  refine ⟨?_, runLoop_force, ?_⟩
  · intro st rest hf hs
    simp [part2go, tokenIsPositional, hf, hs]
  · intro st pending a hf
    simp [tokenIsPositional, hf]

/-- Witness for C10: a `--` consumed from `c8State` continues with the
flag set, and with the flag set a dashed token is classified
positional. -/
theorem force_positional_is_sticky_witness :
    part2go ("--".toList :: []) c8State none
        = part2go [] { c8State with argi := [], forcePositional := true }
            none
      ∧ tokenIsPositional
          { c8State with forcePositional := true } none "-x".toList
        = true :=
  ⟨force_positional_is_sticky.1 c8State [] rfl rfl,
    force_positional_is_sticky.2.2 _ none "-x".toList rfl⟩

theorem part1Step_argi_irrel (st : InterpState) (op : CharmInstruction)
    (A B : List (List Char)) (hA : A ≠ []) (hB : B ≠ []) :
    part1Step { st with argi := A } op
      = (part1Step { st with argi := B } op).map
          (Sum.map (fun s => { s with argi := A })
            (fun q => ({ q.1 with argi := A }, q.2))) := by
  cases op <;>
    simp only [part1Step] <;>
    (repeat' split) <;>
    simp_all [Except.map, Sum.map]

theorem part1_argi_irrel : ∀ (fuel : Nat) (st : InterpState) (A B : List (List Char)),
    A ≠ [] → B ≠ [] →
    part1 fuel { st with argi := A }
      = (part1 fuel { st with argi := B }).map
          (fun q => ({ q.1 with argi := A }, q.2)) := by
  intro fuel
  induction fuel with
  | zero => intro st A B hA hB; rfl
  | succ fuel ih =>
    intro st A B hA hB
    obtain ⟨pr, ip, cs, cv, o, g, gs, cvs, ck, gst, ngk, idg, opts, argi, fp, oso, seo, sco⟩ := st
    rw [part1, part1]
    simp only [ipTruthy]
    dsimp only
    cases ip with
    | none => cases cs <;> rfl
    | some i =>
      by_cases h : i < pr.opcodes.length
      · have hd : decide (i < pr.opcodes.length) = true := decide_eq_true h
        simp only [hd, Bool.not_true, Bool.false_and, Bool.false_eq_true, if_false]
        rw [dif_pos h, dif_pos h]
        have hstep := part1Step_argi_irrel
          ⟨pr, some (i + 1), cs, cv, o, g, gs, cvs, ck, gst, ngk, idg, opts, argi, fp, oso, seo, sco⟩
          (pr.opcodes.get ⟨i, h⟩) A B hA hB
        dsimp only at hstep
        rw [hstep]
        cases hB2 : part1Step
            ⟨pr, some (i + 1), cs, cv, o, g, gs, cvs, ck, gst, ngk, idg, opts, B, fp, oso, seo, sco⟩
            (pr.opcodes.get ⟨i, h⟩) with
        | error e => rfl
        | ok val =>
          cases val with
          | inl s2 =>
            have hargi : s2.argi = B := (part1Step_frame _ _ _ hB2).2.1
            have heta : ({ s2 with argi := B } : InterpState) = s2 := by
              rw [← hargi]
            have hIH := ih s2 A B hA hB
            rw [heta] at hIH
            simpa [Except.map, Sum.map] using hIH
          | inr q => simp [Except.map, Sum.map]
      · have hd : decide (i < pr.opcodes.length) = false := decide_eq_false h
        simp only [hd, Bool.not_false, Bool.true_and]
        cases cs with
        | nil => rfl
        | cons f rest =>
          simp only [List.isEmpty_cons, Bool.false_eq_true, if_false]
          rw [dif_neg h, dif_neg h]
          have hIH := ih (finishSt
            ⟨pr, some i, f :: rest, cv, o, g, gs, cvs, ck, gst, ngk, idg, opts, B, fp, oso, seo, sco⟩)
            A B hA hB
          dsimp only [finishSt] at hIH ⊢
          exact hIH

theorem part1Step_benign (st : InterpState) (op : CharmInstruction)
    (out : InterpState ⊕ InterpState × Pending)
    (hb : benignInstr op = true)
    (h : part1Step st op = .ok out) :
    ∃ s, out = .inl s ∧ s.opts = st.opts ∧ s.program = st.program
      ∧ s.callStack = st.callStack := by
  cases op with
  | map_option o p g => simp [benignInstr] at hb
  | consume_argument r oa => simp [benignInstr] at hb
  | _ =>
    simp only [part1Step] at h <;>
    (repeat' split at h) <;>
    first
      | (cases h; exact ⟨_, rfl, rfl, rfl, rfl⟩)
      | exact Except.noConfusion h

theorem part1_benign (fuel : Nat) : ∀ (st s : InterpState) (p : Option Pending),
    stBenign st = true →
    part1 fuel st = .ok (s, p) →
    p = none ∧ s.opts = st.opts := by
  induction fuel with
  | zero => intro st s p hb h; simp [part1] at h
  | succ fuel ih =>
    intro st s p hb h
    rw [part1] at h
    rw [stBenign, Bool.and_eq_true] at hb
    split at h
    · cases h; exact ⟨rfl, rfl⟩
    · split at h
      · exact absurd h (by simp)
      · rename_i hstop i heq2
        split at h
        · rename_i hlt
          have hipt : ipTruthy st = true := by
            rw [ipTruthy, heq2]
            exact decide_eq_true hlt
          have hprog : progBenign st.program = true := by
            rcases hb.1 with hb1
            rw [Bool.or_eq_true, hipt] at hb1
            simpa using hb1
          have hbop : benignInstr (st.program.opcodes.get ⟨i, hlt⟩) = true := by
            have := List.all_eq_true.mp hprog
            exact this _ (List.get_mem _ _ _)
          split at h
          · exact absurd h (by simp)
          · rename_i st2 heq3
            obtain ⟨s2, hout, hopts2, hprog2, hcs2⟩ :=
              part1Step_benign _ _ _ hbop heq3
            cases hout
            have hb2 : stBenign st2 = true := by
              rw [stBenign, Bool.and_eq_true, hprog2, hcs2]
              refine ⟨?_, hb.2⟩
              rw [Bool.or_eq_true, hprog]
              simp
            obtain ⟨hp, ho⟩ := ih st2 s p hb2 h
            refine ⟨hp, ho.trans ?_⟩
            exact hopts2
          · rename_i st2 p2 heq3
            obtain ⟨s2, hout, _⟩ := part1Step_benign _ _ _ hbop heq3
            exact absurd hout (by simp)
        · rename_i hlt
          have hbf : stBenign (finishSt st) = true := by
            rcases hcase : st.callStack with _ | ⟨f, rest⟩
            · rw [stBenign, finishSt, hcase]
              simp [ipTruthy]
            · have hfr : frameBenign f = true ∧ rest.all frameBenign = true := by
                have := hb.2
                rw [hcase, List.all_cons, Bool.and_eq_true] at this
                exact this
              rw [stBenign, finishSt, hcase, Bool.and_eq_true]
              refine ⟨?_, hfr.2⟩
              have : ipTruthy
                  { st with
                    ip := f.ip, program := f.program,
                    converter := f.converter, o := f.o, group := f.group,
                    groups := f.groups, callStack := rest } = f.live := rfl
              rw [this]
              have := hfr.1
              rw [frameBenign] at this
              exact this
          have hof : (finishSt st).opts = st.opts := by
            rw [finishSt]
            split <;> rfl
          obtain ⟨hp, ho⟩ := ih _ _ _ hbf h
          exact ⟨hp, ho.trans hof⟩

theorem c4_tail (k : Nat) (pr : CharmProgram) (ip : Option Nat)
    (cs : List Frame) (cv : Option Nat) (o : Option Val) (g : Option Nat)
    (gs : List Nat) (cvs : ConvStore) (ck : Option Nat)
    (gst : List (Nat × ArgumentGroup)) (ngk : Nat) (idg : List (Nat × Nat))
    (opts : OptionsState) (sco : Bool)
    (pb : CharmProgram) (gid tok : Nat)
    (hben : stBenign ⟨pr, ip, cs, cv, o, g, gs, cvs, ck, gst, ngk, idg,
      opts, [['-', 'b'], ['-', 'c']], false, true, true, sco⟩ = true)
    (hfind : opts.find ['b'] = some ((pb, gid), tok))
    (hmax : pb.totalMax = .fin 0) :
    runLoop (k + 1) ⟨pr, ip, cs, cv, o, g, gs, cvs, ck, gst, ngk, idg,
        opts, [['-', 'b', 'c']], false, true, true, sco⟩
      = runLoop (k + 1) ⟨pr, ip, cs, cv, o, g, gs, cvs, ck, gst, ngk, idg,
        opts, [['-', 'b'], ['-', 'c']], false, true, true, sco⟩ := by
  rw [runLoop, runLoop]
  simp only [List.isEmpty_cons, Bool.not_false, Bool.or_true, if_true]
  have hswap := part1_argi_irrel (k + 1)
    ⟨pr, ip, cs, cv, o, g, gs, cvs, ck, gst, ngk, idg,
      opts, [['-', 'b'], ['-', 'c']], false, true, true, sco⟩
    [['-', 'b', 'c']] [['-', 'b'], ['-', 'c']] (by simp) (by simp)
  dsimp only at hswap
  rw [hswap]
  cases hE : part1 (k + 1)
      ⟨pr, ip, cs, cv, o, g, gs, cvs, ck, gst, ngk, idg,
        opts, [['-', 'b'], ['-', 'c']], false, true, true, sco⟩ with
  | error e => rfl
  | ok q =>
    obtain ⟨s, pnd⟩ := q
    obtain ⟨hpnd, hopts⟩ := part1_benign (k + 1) _ s pnd hben hE
    subst hpnd
    obtain ⟨hsf, hargi, hsoo, hsee, hsco⟩ := part1_frame (k + 1) _ s none hE
    dsimp only at hsf hargi hsoo hsee hsco hopts
    simp only [Except.map, Sum.map]
    simp [part2, part2go, tokenIsPositional, partitionEq, hargi, hsf,
      hsoo, hsee, hopts, hfind, hmax]

/-- C4: for any three options `-a -b -c` that each take no value (their
sub-programs consume no arguments and map no options, and their
aggregate argument maximum is zero), running the interpreter on the
bundled token `-abc` produces exactly the same result — the identical
converter tree — as running it on the separate tokens `-a -b -c`, at
every fuel bound. -/
theorem short_option_bundling (pa pb pc : CharmProgram)
    (hba : progBenign pa = true) (hmaxa : pa.totalMax = .fin 0)
    (hbb : progBenign pb = true) (hmaxb : pb.totalMax = .fin 0)
    (hbc : progBenign pc = true) (hmaxc : pc.totalMax = .fin 0)
    (fuel : Nat) :
    runInterp (threeOptRoot pa pb pc) fuel [['-', 'a', 'b', 'c']] false
      = runInterp (threeOptRoot pa pb pc) fuel
          [['-', 'a'], ['-', 'b'], ['-', 'c']] false := by
  rcases Nat.lt_or_ge fuel 7 with hf | hf
  · interval_cases fuel <;> rfl
  · obtain ⟨k, rfl⟩ : ∃ k, fuel = k + 7 := ⟨fuel - 7, by omega⟩
    have h0 : runInterp (threeOptRoot pa pb pc) (k + 7)
          [['-', 'a', 'b', 'c']] false
        = (match part2
              ⟨threeOptRoot pa pb pc, some 6, [], none, some (.conv 0),
                some 0, [0], [(0, ConvState.fresh false)], some 0,
                [(0, ⟨0, 0, .fin 0, false, 0, false⟩)], 1, [(0, 0)],
                ⟨[(['a'], (pa, 0)), (['b'], (pb, 0)), (['c'], (pc, 0))],
                  1, [], 2⟩,
                [['-', 'a', 'b', 'c']], false, true, true, true⟩ none with
            | .ret r => Except.ok r
            | .err e => Except.error e
            | .cont s => runLoop (k + 6) s) := rfl
    have h2 : part2
          ⟨threeOptRoot pa pb pc, some 6, [], none, some (.conv 0), some 0,
            [0], [(0, ConvState.fresh false)], some 0,
            [(0, ⟨0, 0, .fin 0, false, 0, false⟩)], 1, [(0, 0)],
            ⟨[(['a'], (pa, 0)), (['b'], (pb, 0)), (['c'], (pc, 0))],
              1, [], 2⟩,
            [['-', 'a', 'b', 'c']], false, true, true, true⟩ none
        = .cont ⟨pa, some 0,
            [⟨some 6, threeOptRoot pa pb pc, none, some (.conv 0), some 0,
              [0]⟩],
            none, none, none, [], [(0, ConvState.fresh false)], some 0,
            [(0, ⟨0, 0, .fin 0, false, 0, true⟩)], 1, [(0, 0)],
            ⟨[], 2,
              [([(['a'], (pa, 0)), (['b'], (pb, 0)), (['c'], (pc, 0))], 1)],
              3⟩,
            [['-', 'b', 'c']], false, true, true, true⟩ := by
      simp [part2, part2go, tokenIsPositional, partitionEq, invokeOption,
        hmaxa, OptionsState.find, OptionsState.popUntilToken,
        OptionsState.push, alGet, alModify, callProgram]
    have h3 := c4_tail (k + 5) pa (some 0)
        [⟨some 6, threeOptRoot pa pb pc, none, some (.conv 0), some 0, [0]⟩]
        none none none [] [(0, ConvState.fresh false)] (some 0)
        [(0, ⟨0, 0, .fin 0, false, 0, true⟩)] 1 [(0, 0)]
        ⟨[], 2,
          [([(['a'], (pa, 0)), (['b'], (pb, 0)), (['c'], (pc, 0))], 1)], 3⟩
        true pb 0 1
        (by simp [stBenign, frameBenign, Frame.live, threeOptRoot,
          CharmProgram.opcodes, hba])
        rfl hmaxb
    have h4 : runLoop (k + 6)
          ⟨pa, some 0,
            [⟨some 6, threeOptRoot pa pb pc, none, some (.conv 0), some 0,
              [0]⟩],
            none, none, none, [], [(0, ConvState.fresh false)], some 0,
            [(0, ⟨0, 0, .fin 0, false, 0, true⟩)], 1, [(0, 0)],
            ⟨[], 2,
              [([(['a'], (pa, 0)), (['b'], (pb, 0)), (['c'], (pc, 0))], 1)],
              3⟩,
            [['-', 'b'], ['-', 'c']], false, true, true, true⟩
        = runInterp (threeOptRoot pa pb pc) (k + 7)
            [['-', 'a'], ['-', 'b'], ['-', 'c']] false := rfl
    rw [h0, h2]
    exact h3.trans h4

theorem short_option_bundling_witness :
    progBenign (boolOptProg ['a'] 1 10 ['a']) = true
    ∧ (boolOptProg ['a'] 1 10 ['a']).totalMax = .fin 0
    ∧ runInterp
          (threeOptRoot (boolOptProg ['a'] 1 10 ['a'])
            (boolOptProg ['b'] 2 11 ['b']) (boolOptProg ['c'] 3 12 ['c']))
          30 [['-', 'a', 'b', 'c']] false
        = runInterp
            (threeOptRoot (boolOptProg ['a'] 1 10 ['a'])
              (boolOptProg ['b'] 2 11 ['b']) (boolOptProg ['c'] 3 12 ['c']))
            30 [['-', 'a'], ['-', 'b'], ['-', 'c']] false :=
  ⟨rfl, rfl,
    short_option_bundling (boolOptProg ['a'] 1 10 ['a'])
      (boolOptProg ['b'] 2 11 ['b']) (boolOptProg ['c'] 3 12 ['c'])
      rfl rfl rfl rfl rfl rfl 30⟩

end AppealSpec
